import Mathlib

/-!
Verification of the wp-to-markdown exporter's content-transformation core.

The definitions below are a shallow embedding of the `WordPressExporter`
class of the repository's main script (src/unnamed/part_002, the entry
point documented by the readme: it is the variant with the plugin pipeline,
the `--preserve-tags` option and the second-pass link rewriting).  External
library behaviour (DOM parsing, `sanitize-filename`, `JSON.parse`,
`path.join`) is modelled at the granularity the exporter's own code
observes it; each model notes its source.

Strings are processed as `List Char` throughout so that every definition
reduces in the kernel.
-/

namespace WpToMarkdown

/-- Whitespace recognised by JavaScript `String.prototype.trim` (the ASCII
part: space, tab, line feed, carriage return, vertical tab, form feed). -/
def isJsWhitespace (c : Char) : Bool :=
  c = ' ' || c = '\t' || c = '\n' || c = '\r' || c = '\x0b' || c = '\x0c'

/-- Drop leading and trailing JS whitespace, as `.trim()` does. -/
def trimChars (cs : List Char) : List Char :=
  ((cs.dropWhile isJsWhitespace).reverse.dropWhile isJsWhitespace).reverse

/-- Characters removed by the `sanitize-filename` dependency: the illegal
set `/ ? < > \ : * | "` and control characters.  (The dependency's
reserved-Windows-name and length-truncation handling is not exercised by
the exporter on any input considered here.) -/
def sanitizeKeeps (c : Char) : Bool :=
  !(c = '/' || c = '?' || c = '<' || c = '>' || c = '\\' || c = ':' ||
    c = '*' || c = '|' || c = '"' || c.toNat < 32)

/-- Model of `sanitize(s)` from the `sanitize-filename` dependency:
illegal and control characters are removed. -/
def sanitize (s : String) : String :=
  ⟨s.data.filter sanitizeKeeps⟩

/-- Split a character list on `'/'`, exactly as JavaScript
`imageUrl.split('/')` does (empty segments preserved). -/
def splitSlash : List Char → List (List Char)
  | [] => [[]]
  | '/' :: rest => [] :: splitSlash rest
  | c :: rest =>
      match splitSlash rest with
      | s :: ss => (c :: s) :: ss
      | [] => [[c]]

/-- The final `'/'`-separated segment of a URL:
`urlParts[urlParts.length - 1]` after `imageUrl.split('/')`
(src/unnamed/part_002 lines 217-218). -/
def lastSegment (url : String) : String :=
  ⟨(splitSlash url.data).getLastD []⟩

/-- Model of Node's `path.join(a, b)` on plain relative segments (the only
shape the exporter produces): concatenation with a single separator. -/
def pathJoin (a b : String) : String :=
  if a = "" then b else if b = "" then a else a ++ "/" ++ b

/-- Model of Node's `path.relative(from, p)` in the straightforward case
where `p` lies under `from`: the `from` prefix and its separator are
stripped.  (Used only to state what a base-relative path would be; the
current entry point never calls `path.relative` — only the older
`src/lib/index.js` variant did.) -/
def pathRelative (base p : String) : String :=
  if base = p then ""
  else if (base.data ++ ['/']).isPrefixOf p.data then
    ⟨p.data.drop (base.data.length + 1)⟩
  else p

/-- First-match association-list lookup (the read side of a JS `Map`). -/
def alookup {α : Type} : List (String × α) → String → Option α
  | [], _ => none
  | kv :: rest, key => if kv.1 = key then some kv.2 else alookup rest key

/-- JS `Map.prototype.set`: overwrite the value when the key is present
(keeping its position), otherwise append the new entry.  (`Map` keys are
unique, so replacing the first occurrence is the general behaviour.) -/
def mapSet {α : Type} : List (String × α) → String → α → List (String × α)
  | [], k, v => [(k, v)]
  | kv :: rest, k, v =>
      if kv.1 = k then (k, v) :: rest else kv :: mapSet rest k v

/-! ## Asset resolver (`processImages` / `downloadImage`)

The DOM is modelled as the flat sequence of nodes the exporter actually
touches: `img` elements (their `src` attribute), `a` elements (their
`href` attribute) and everything else.  `processImages` only performs
per-node attribute rewrites, so nesting is irrelevant to its behaviour. -/

/-- A DOM node as observed by `processImages`. -/
inductive HNode : Type
  | img (src : String)
  | anchor (href : String)
  | text (s : String)
deriving DecidableEq

/-- Model of `downloadImage(imageUrl, postSlug)`
(src/unnamed/part_002 lines 206-232).  The injected byte-fetch (and the
subsequent byte write, whose failure is caught by the same handler) is
`fetchBytes : String → Bool`.  On success the method returns
`path.join(path.join(imagesDir, sanitize(postSlug)), sanitize(originalFilename))`
where `originalFilename` is the last `'/'`-segment of the URL; on any
failure it logs a warning and returns `null` (here `none`). -/
def downloadImage (fetchBytes : String → Bool) (imagesDir : String)
    (imageUrl postSlug : String) : Option String :=
  if fetchBytes imageUrl then
    some (pathJoin (pathJoin imagesDir (sanitize postSlug))
      (sanitize (lastSegment imageUrl)))
  else
    none

/-- The path `downloadImage` derives for a URL on success. -/
def downloadImagePathOf (imagesDir postSlug imageUrl : String) : String :=
  pathJoin (pathJoin imagesDir (sanitize postSlug))
    (sanitize (lastSegment imageUrl))

/-- First pass of `processImages` (src/unnamed/part_002 lines 242-253):
walk the `img` elements in document order; skip empty `src`; otherwise
call `downloadImage`, and on success rewrite the node's `src` and record
the URL→path mapping.  Returns the rewritten nodes, the final mapping and
the number of `downloadImage` invocations (each of which performs exactly
one fetch). -/
def processPass1 (fetchBytes : String → Bool) (imagesDir slug : String) :
    List HNode → List (String × String) →
    List HNode × List (String × String) × Nat
  | [], m => ([], m, 0)
  | HNode.img src :: rest, m =>
      if src = "" then
        let r := processPass1 fetchBytes imagesDir slug rest m
        (HNode.img src :: r.1, r.2.1, r.2.2)
      else
        match downloadImage fetchBytes imagesDir src slug with
        | some p =>
            let r := processPass1 fetchBytes imagesDir slug rest (mapSet m src p)
            (HNode.img p :: r.1, r.2.1, r.2.2 + 1)
        | none =>
            let r := processPass1 fetchBytes imagesDir slug rest m
            (HNode.img src :: r.1, r.2.1, r.2.2 + 1)
  | HNode.anchor href :: rest, m =>
      let r := processPass1 fetchBytes imagesDir slug rest m
      (HNode.anchor href :: r.1, r.2.1, r.2.2)
  | HNode.text s :: rest, m =>
      let r := processPass1 fetchBytes imagesDir slug rest m
      (HNode.text s :: r.1, r.2.1, r.2.2)

/-- How the first pass rewrites one node, viewed pointwise: an `img`
node's fate depends only on its own `src` and the (deterministic) fetch
outcome, never on the mapping accumulated so far. -/
def pass1Rewrite (fetchBytes : String → Bool) (imagesDir slug : String) :
    HNode → HNode
  | HNode.img src =>
      if src = "" then HNode.img src
      else
        match downloadImage fetchBytes imagesDir src slug with
        | some p => HNode.img p
        | none => HNode.img src
  | n => n

/-- How the second pass rewrites one node: an `a` element whose
non-empty `href` is a key of the mapping is redirected to the mapped
local path. -/
def pass2Rewrite (m : List (String × String)) : HNode → HNode
  | HNode.anchor href =>
      if href = "" then HNode.anchor href
      else
        match alookup m href with
        | some p => HNode.anchor p
        | none => HNode.anchor href
  | n => n

/-- Second pass of `processImages` (src/unnamed/part_002 lines 255-263):
rewrite every `a` element whose target was downloaded. -/
def processPass2 (m : List (String × String)) : List HNode → List HNode :=
  List.map (pass2Rewrite m)

/-- Result of `processImages`: the rewritten fragment, the
`imageUrlMap`, and how many times the fetch capability was invoked. -/
structure ProcessResult : Type where
  nodes : List HNode
  imageUrlMap : List (String × String)
  fetchCalls : Nat
deriving DecidableEq

/-- Model of `processImages(content, postSlug)`
(src/unnamed/part_002 lines 234-268): first pass downloads and rewrites
`img` elements building `imageUrlMap`, second pass rewrites `a` elements
whose targets were downloaded. -/
def processImages (fetchBytes : String → Bool) (imagesDir slug : String)
    (nodes : List HNode) : ProcessResult :=
  let r := processPass1 fetchBytes imagesDir slug nodes []
  ⟨processPass2 r.2.1 r.1, r.2.1, r.2.2⟩

/-- Whether a node list contains any `img` element. -/
def hasImg (nodes : List HNode) : Bool :=
  nodes.any fun n =>
    match n with
    | HNode.img _ => true
    | _ => false

/-- Whether some `img` element in the list has the given `src`. -/
def imgOccurs (u : String) (nodes : List HNode) : Bool :=
  nodes.any fun n =>
    match n with
    | HNode.img v => v = u
    | _ => false

/-- Number of `img` elements with a non-empty `src` — exactly the
occurrences for which the first pass calls `downloadImage`. -/
def countImgFetches (nodes : List HNode) : Nat :=
  (nodes.filter fun n =>
    match n with
    | HNode.img v => v ≠ ""
    | _ => false).length

/-! ## Code block classifier (the `codeBlocks` turndown rule) -/

/-- Whether `needle` occurs as a contiguous substring of `hay` — the
condition `hay.indexOf(needle) !== -1` of JavaScript (note the JS quirk
that the empty needle always occurs). -/
def containsSub (needle : List Char) : List Char → Bool
  | [] => needle.isEmpty
  | c :: t => needle.isPrefixOf (c :: t) || containsSub needle t

/-- String-level substring test matching `hay.indexOf(needle) !== -1`. -/
def strContainsSub (hay needle : String) : Bool :=
  containsSub needle.data hay.data

/-- A DOM node as observed by the `codeBlocks` rule: its `className`
string and its `textContent`. -/
structure CodeNode : Type where
  className : String
  textContent : String
deriving DecidableEq

/-- The `codeBlocks` rule's filter (src/unnamed/part_002 line 42):
`this.codeClasses.some(className => node.className.indexOf(className) !== -1)`. -/
def codeBlockFilter (codeClasses : List String) (node : CodeNode) : Bool :=
  codeClasses.any fun className => strContainsSub node.className className

/-- Stage 1 of text normalization (line 45): replace every literal
two-character backslash-n sequence with a real line break, left to right. -/
def replaceLiteralNewlines : List Char → List Char
  | '\\' :: 'n' :: rest => '\n' :: replaceLiteralNewlines rest
  | c :: rest => c :: replaceLiteralNewlines rest
  | [] => []

/-- Stage 2 of text normalization (line 46): CRLF becomes LF. -/
def normalizeCrlf : List Char → List Char
  | '\r' :: '\n' :: rest => '\n' :: normalizeCrlf rest
  | c :: rest => c :: normalizeCrlf rest
  | [] => []

/-- Stage 3 of text normalization (line 47): a lone CR becomes LF. -/
def normalizeCr : List Char → List Char
  | '\r' :: rest => '\n' :: normalizeCr rest
  | c :: rest => c :: normalizeCr rest
  | [] => []

/-- The full normalization of `node.textContent`
(src/unnamed/part_002 lines 44-48): literal backslash-n replacement, then
CRLF, then CR normalization, then `.trim()`. -/
def normalizeCodeText (s : String) : String :=
  ⟨trimChars (normalizeCr (normalizeCrlf (replaceLiteralNewlines s.data)))⟩

/-- The `languageMap` lookup table (src/unnamed/part_002 lines 51-63)
from `lang-detector` labels to canonical lowercase markdown tags. -/
def languageMap : List (String × String) :=
  [("JavaScript", "javascript"), ("C", "c"), ("C++", "cpp"),
   ("Python", "python"), ("Java", "java"), ("HTML", "html"),
   ("CSS", "css"), ("Ruby", "ruby"), ("Go", "go"), ("PHP", "php"),
   ("Unknown", "")]

/-- Whitespace accepted between JSON tokens by `JSON.parse`
(ECMA-404/ECMA-262: space, tab, line feed, carriage return). -/
def skipJsonWs (cs : List Char) : List Char :=
  cs.dropWhile fun c => c = ' ' || c = '\t' || c = '\n' || c = '\r'

/-- Hexadecimal digit test for JSON string escapes. -/
def isHexDigitChar (c : Char) : Bool :=
  (48 ≤ c.toNat && c.toNat ≤ 57) || (97 ≤ c.toNat && c.toNat ≤ 102) ||
  (65 ≤ c.toNat && c.toNat ≤ 70)

/-- Accept the remainder of a JSON string after its opening quote,
returning the input after the closing quote.  Escapes are
`\" \\ \/ \b \f \n \r \t` and `\uXXXX`; raw control characters are
rejected, per the `JSON.parse` grammar. -/
def jsonStringRest : Nat → List Char → Option (List Char)
  | 0, _ => none
  | _ + 1, [] => none
  | fuel + 1, c :: rest =>
      if c = '"' then some rest
      else if c = '\\' then
        match rest with
        | [] => none
        | e :: rest2 =>
            if e = '"' || e = '\\' || e = '/' || e = 'b' || e = 'f' ||
               e = 'n' || e = 'r' || e = 't' then
              jsonStringRest fuel rest2
            else if e = 'u' then
              match rest2 with
              | a :: b :: c2 :: d :: rest3 =>
                  if isHexDigitChar a && isHexDigitChar b &&
                     isHexDigitChar c2 && isHexDigitChar d then
                    jsonStringRest fuel rest3
                  else none
              | _ => none
            else none
      else if c.toNat < 32 then none
      else jsonStringRest fuel rest

/-- Accept an optional JSON fraction part (`.digits`). -/
def jsonFrac : List Char → Option (List Char)
  | '.' :: rest =>
      match rest with
      | d :: _ => if d.isDigit then some (rest.dropWhile Char.isDigit) else none
      | [] => none
  | cs => some cs

/-- Accept an optional JSON exponent part (`[eE][+-]?digits`). -/
def jsonExp : List Char → Option (List Char)
  | [] => some []
  | c :: rest =>
      if c = 'e' || c = 'E' then
        let rest2 :=
          match rest with
          | s :: r => if s = '+' || s = '-' then r else s :: r
          | [] => []
        match rest2 with
        | d :: _ => if d.isDigit then some (rest2.dropWhile Char.isDigit) else none
        | [] => none
      else some (c :: rest)

/-- Accept a JSON number: `-?(0|[1-9][0-9]*)` then optional fraction and
exponent. -/
def jsonNumber (cs : List Char) : Option (List Char) :=
  let cs1 :=
    match cs with
    | '-' :: r => r
    | _ => cs
  match cs1 with
  | '0' :: r => (jsonFrac r).bind jsonExp
  | c :: r =>
      if c.isDigit then (jsonFrac (r.dropWhile Char.isDigit)).bind jsonExp
      else none
  | [] => none

/-- Parsing mode: a value, the members of an object after `{`, or the
elements of an array after `[`. -/
inductive JMode : Type
  | val
  | members
  | elems
deriving DecidableEq

/-- Fuel-bounded acceptor for the `JSON.parse` grammar: accepts any JSON
value — object, array, string, number, `true`, `false` or `null` — and
returns the unconsumed input. -/
def jsonParse : Nat → JMode → List Char → Option (List Char)
  | 0, _, _ => none
  | fuel + 1, JMode.val, cs =>
      match cs with
      | 't' :: 'r' :: 'u' :: 'e' :: rest => some rest
      | 'f' :: 'a' :: 'l' :: 's' :: 'e' :: rest => some rest
      | 'n' :: 'u' :: 'l' :: 'l' :: rest => some rest
      | '"' :: rest => jsonStringRest (rest.length + 1) rest
      | '{' :: rest =>
          match skipJsonWs rest with
          | '}' :: r2 => some r2
          | r => jsonParse fuel JMode.members r
      | '[' :: rest =>
          match skipJsonWs rest with
          | ']' :: r2 => some r2
          | r => jsonParse fuel JMode.elems r
      | _ => jsonNumber cs
  | fuel + 1, JMode.members, cs =>
      match cs with
      | '"' :: rest =>
          match jsonStringRest (rest.length + 1) rest with
          | none => none
          | some r2 =>
              match skipJsonWs r2 with
              | ':' :: r3 =>
                  match jsonParse fuel JMode.val (skipJsonWs r3) with
                  | none => none
                  | some r4 =>
                      match skipJsonWs r4 with
                      | ',' :: r5 => jsonParse fuel JMode.members (skipJsonWs r5)
                      | '}' :: r5 => some r5
                      | _ => none
              | _ => none
      | _ => none
  | fuel + 1, JMode.elems, cs =>
      match jsonParse fuel JMode.val cs with
      | none => none
      | some r =>
          match skipJsonWs r with
          | ',' :: r2 => jsonParse fuel JMode.elems (skipJsonWs r2)
          | ']' :: r2 => some r2
          | _ => none

/-- Model of `isJson(code)` (src/unnamed/part_002 lines 79-86):
`JSON.parse(code)` succeeds exactly when the whole text, modulo
surrounding JSON whitespace, is one JSON value of any kind. -/
def isJson (code : String) : Bool :=
  match jsonParse (code.length * 2 + 4) JMode.val (skipJsonWs code.data) with
  | some rest => (skipJsonWs rest).isEmpty
  | none => false

/-- The language tag the `codeBlocks` replacement emits
(src/unnamed/part_002 lines 65-69): the `languageMap` entry for the
detected label when that entry is non-empty; otherwise `json` when the
normalized text parses as JSON; otherwise the empty tag.  `detect` stands
for the external `lang-detector` heuristic. -/
def langTag (detect : String → String) (code : String) : String :=
  match alookup languageMap (detect code) with
  | some l => if l = "" then (if isJson code then "json" else "") else l
  | none => if isJson code then "json" else ""

/-- Whether detection produced no mapped tag: the detected label is
absent from `languageMap` or maps to the empty tag (`Unknown`). -/
def detectUnmapped (detect : String → String) (code : String) : Bool :=
  match alookup languageMap (detect code) with
  | some l => l = ""
  | none => true

/-- The `codeBlocks` rule's replacement (src/unnamed/part_002 lines
43-70): a fenced block carrying the guessed language tag and the
normalized text, followed by a blank line. -/
def codeBlockReplacement (detect : String → String) (node : CodeNode) :
    String :=
  let code := normalizeCodeText node.textContent
  "```" ++ langTag detect code ++ "\n" ++ code ++ "\n```\n\n"

/-! ## Post records and frontmatter assembly -/

/-- A taxonomy term as embedded in a post record (only its `name` is
read, by `extractTermNames`). -/
structure Term : Type where
  name : String
deriving DecidableEq

/-- An embedded author object (only its `name` is read). -/
structure AuthorRef : Type where
  name : String
deriving DecidableEq

/-- An embedded featured-media object (only its `source_url` is read). -/
structure MediaRef : Type where
  source_url : String
deriving DecidableEq

/-- The `_embedded` payload of a post record; each field is optional, as
each optional-chaining access (`?.`) in the source can fail
independently. -/
structure EmbeddedData : Type where
  wpTerm : Option (List (List Term))
  author : Option (List AuthorRef)
  wpFeaturedmedia : Option (List MediaRef)
deriving DecidableEq

/-- The fields of a WordPress post record the exporter reads. -/
structure Post : Type where
  titleRendered : String
  date : String
  modified : String
  slug : String
  status : String
  authorRaw : String
  excerptRendered : String
  contentRendered : String
  embedded : Option EmbeddedData
deriving DecidableEq

/-- Model of `extractTermNames(terms)` (src/unnamed/part_002 lines
270-272): map each term to its name, or yield `[]` when the taxonomy
group is absent. -/
def extractTermNames : Option (List Term) → List String
  | some ts => ts.map Term.name
  | none => []

/-- The `i`-th embedded taxonomy group:
`post._embedded?.['wp:term']?.[i]`. -/
def termGroup (p : Post) (i : Nat) : Option (List Term) :=
  (p.embedded.bind EmbeddedData.wpTerm).bind fun groups => groups.get? i

/-- The author field: `post._embedded?.['author']?.[0]?.name || post.author`
(line 291) — the embedded author name when present and truthy, else the
raw author field. -/
def authorOf (p : Post) : String :=
  match ((p.embedded.bind EmbeddedData.author).bind fun l => l.get? 0) with
  | some a => if a.name = "" then p.authorRaw else a.name
  | none => p.authorRaw

/-- Model of `extractFeaturedImage(post, imageUrlMap)`
(src/unnamed/part_002 lines 274-285): `null` when no embedded featured
media exists; else the mapping's entry when the media URL was already
downloaded during body processing; else a fresh `downloadImage`. -/
def extractFeaturedImage (fetchBytes : String → Bool) (imagesDir : String)
    (p : Post) (imageUrlMap : List (String × String)) : Option String :=
  match ((p.embedded.bind EmbeddedData.wpFeaturedmedia).bind fun l => l.get? 0) with
  | none => none
  | some m =>
      match alookup imageUrlMap m.source_url with
      | some v => some v
      | none => downloadImage fetchBytes imagesDir m.source_url p.slug

/-- A frontmatter value: a scalar string or a list of strings. -/
inductive FMVal : Type
  | str (s : String)
  | list (l : List String)
deriving DecidableEq

/-- JS truthiness of the `featuredMediaUrl` guard
(`if (featuredMediaUrl)` at line 307): non-null and non-empty. -/
def featuredTruthy : Option String → Bool
  | some s => s ≠ ""
  | none => false

/-- Model of the frontmatter object built by `createFrontMatter(post,
imageUrlMap)` before the plugin fold (src/unnamed/part_002 lines
287-309): an insertion-ordered association list, with `featured_image`
appended last exactly when the featured image resolved to a truthy
path. -/
def createFrontMatter (fetchBytes : String → Bool) (imagesDir wpUrl : String)
    (p : Post) (imageUrlMap : List (String × String)) :
    List (String × FMVal) :=
  let categories := extractTermNames (termGroup p 0)
  let tags := extractTermNames (termGroup p 1)
  let base : List (String × FMVal) :=
    [("title", FMVal.str p.titleRendered),
     ("date", FMVal.str p.date),
     ("modified", FMVal.str p.modified),
     ("slug", FMVal.str p.slug),
     ("status", FMVal.str p.status),
     ("categories", FMVal.list categories),
     ("tags", FMVal.list tags),
     ("author", FMVal.str (authorOf p)),
     ("excerpt", FMVal.str p.excerptRendered),
     ("original_url", FMVal.str (wpUrl ++ "/" ++ p.slug))]
  match extractFeaturedImage fetchBytes imagesDir p imageUrlMap with
  | some f => if f = "" then base else base ++ [("featured_image", FMVal.str f)]
  | none => base

/-- Simplified scalar rendering for the serialization model. -/
def renderFMVal : FMVal → String
  | FMVal.str s => s
  | FMVal.list l => "[" ++ String.intercalate ", " l ++ "]"

/-- Model of `yaml.dump(frontMatter)`: the `js-yaml` dependency emits
keys in JS-object insertion order, i.e. in the order of the association
list; one line per key, in list order. -/
def yamlDump (fm : List (String × FMVal)) : String :=
  String.join (fm.map fun kv => kv.1 ++ ": " ++ renderFMVal kv.2 ++ "\n")

/-! ## Plugin pipeline and orchestrator -/

/-- A loaded plugin: the three static operations the loader verified
(src/unnamed/part_001): `processFrontMatter(frontMatter, post)`,
`processHtml(html, imageUrlMap)` and `processMarkdown(markdown)`. -/
structure Plugin : Type where
  processFrontMatter : List (String × FMVal) → Post → List (String × FMVal)
  processHtml : String → List (String × String) → String
  processMarkdown : String → String

/-- The frontmatter plugin fold (src/unnamed/part_002 lines 311-313):
`for (const plugin of this.loadedPlugins) { frontMatter = plugin.processFrontMatter(frontMatter, post); }`. -/
def foldFrontMatterPlugins (plugins : List Plugin)
    (fm : List (String × FMVal)) (p : Post) : List (String × FMVal) :=
  plugins.foldl (fun acc plugin => plugin.processFrontMatter acc p) fm

/-- The HTML plugin fold (src/unnamed/part_002 lines 324-327):
each plugin's output becomes the next plugin's input; the `imageUrlMap`
is passed unchanged to every hook. -/
def foldHtmlPlugins (plugins : List Plugin) (html : String)
    (imageUrlMap : List (String × String)) : String :=
  plugins.foldl (fun acc plugin => plugin.processHtml acc imageUrlMap) html

/-- The Markdown plugin fold (src/unnamed/part_002 lines 330-333). -/
def foldMarkdownPlugins (plugins : List Plugin) (markdown : String) :
    String :=
  plugins.foldl (fun acc plugin => plugin.processMarkdown acc) markdown

/-- The serialized frontmatter block returned by `createFrontMatter`
(line 315): the assembled document folded through the plugins, dumped
between `---` markers with a trailing blank line. -/
def createFrontMatterString (plugins : List Plugin)
    (fetchBytes : String → Bool) (imagesDir wpUrl : String) (p : Post)
    (imageUrlMap : List (String × String)) : String :=
  "---\n" ++
    yamlDump (foldFrontMatterPlugins plugins
      (createFrontMatter fetchBytes imagesDir wpUrl p imageUrlMap) p) ++
    "---\n\n"

/-- Model of the `exportPosts` loop (src/unnamed/part_002 lines 340-364).
`convert` stands for `convertPostToMarkdown`, which may throw anywhere in
the per-post pipeline (modelled as `Except`).  The single `try`/`catch`
wraps the whole loop: each successful conversion is written immediately;
the first failure is caught at run level, where the error is logged and
`process.exit(1)` is called — no later post is processed.  The result is
the list of documents actually written and the run's failure, if any. -/
def exportPostsRun (convert : Post → Except String String) :
    List Post → List String × Option String
  | [] => ([], none)
  | p :: rest =>
      match convert p with
      | Except.ok doc =>
          let r := exportPostsRun convert rest
          (doc :: r.1, r.2)
      | Except.error e => ([], some e)

/-! ## Concrete fixtures used by counterexamples and witnesses -/

/-- A minimal post record with the given slug and no embedded data. -/
def samplePost (slug : String) : Post :=
  { titleRendered := "Title", date := "2024-01-01",
    modified := "2024-01-02", slug := slug, status := "publish",
    authorRaw := "1", excerptRendered := "", contentRendered := "",
    embedded := none }

/-- A post record with embedded taxonomy terms, author, and featured
media. -/
def mediaPost : Post :=
  { titleRendered := "Title", date := "2024-01-01",
    modified := "2024-01-02", slug := "media-post", status := "publish",
    authorRaw := "1", excerptRendered := "Excerpt",
    contentRendered := "",
    embedded := some
      { wpTerm := some [[⟨"News"⟩], [⟨"Tips"⟩]],
        author := some [⟨"Alice"⟩],
        wpFeaturedmedia := some [⟨"http://x/f.png"⟩] } }

/-- A conversion function that throws exactly on the post with slug
`p2` and succeeds on every other post. -/
def convertFailP2 (p : Post) : Except String String :=
  if p.slug = "p2" then Except.error "conversion failed"
  else Except.ok ("doc-" ++ p.slug)

/-! ## Helper lemmas -/

theorem alookup_mapSet_self {α : Type} (k : String) (v : α) :
    ∀ (m : List (String × α)), alookup (mapSet m k v) k = some v
  | [] => by simp [mapSet, alookup]
  | kv :: rest => by
      by_cases hk : kv.1 = k
      · simp [mapSet, hk, alookup]
      · simp [mapSet, hk, alookup, alookup_mapSet_self k v rest]

theorem alookup_mapSet_ne {α : Type} (k u : String) (v : α) (hne : u ≠ k) :
    ∀ (m : List (String × α)), alookup (mapSet m k v) u = alookup m u
  | [] => by
      have h1 : ¬ (k = u) := fun h => hne h.symm
      simp [mapSet, alookup, h1]
  | kv :: rest => by
      by_cases hk : kv.1 = k
      · have h1 : ¬ (k = u) := fun h => hne h.symm
        have h2 : ¬ (kv.1 = u) := by
          rw [hk]
          exact h1
        simp [mapSet, hk, alookup, h1, h2]
      · by_cases hu : kv.1 = u
        · have h2 : ¬ (u = k) := fun hh => hk (by rw [hu, hh])
          simp [mapSet, hk, alookup, hu, h2]
        · simp [mapSet, hk, alookup, hu, alookup_mapSet_ne k u v hne rest]

theorem mapSet_mem {α : Type} (k : String) (v : α) (kv : String × α) :
    ∀ (m : List (String × α)), kv ∈ mapSet m k v → kv ∈ m ∨ kv = (k, v)
  | [] => by
      intro h
      simp [mapSet] at h
      exact Or.inr h
  | kv' :: rest => by
      intro h
      by_cases hk : kv'.1 = k
      · simp [mapSet, hk] at h
        rcases h with h | h
        · exact Or.inr h
        · exact Or.inl (List.mem_cons_of_mem _ h)
      · simp [mapSet, hk] at h
        rcases h with h | h
        · exact Or.inl (by simp [h])
        · rcases mapSet_mem k v kv rest h with h2 | h2
          · exact Or.inl (List.mem_cons_of_mem _ h2)
          · exact Or.inr h2

theorem processPass1_nodes (f : String → Bool) (d s : String) :
    ∀ (nodes : List HNode) (m : List (String × String)),
      (processPass1 f d s nodes m).1 = nodes.map (pass1Rewrite f d s)
  | [], _ => rfl
  | HNode.img src :: rest, m => by
      by_cases h : src = ""
      · simp [processPass1, pass1Rewrite, h, processPass1_nodes f d s rest m]
      · cases hd : downloadImage f d src s with
        | some p =>
            simp [processPass1, pass1Rewrite, h, hd,
              processPass1_nodes f d s rest (mapSet m src p)]
        | none =>
            simp [processPass1, pass1Rewrite, h, hd,
              processPass1_nodes f d s rest m]
  | HNode.anchor href :: rest, m => by
      simp [processPass1, pass1Rewrite, processPass1_nodes f d s rest m]
  | HNode.text t :: rest, m => by
      simp [processPass1, pass1Rewrite, processPass1_nodes f d s rest m]

theorem processPass1_count (f : String → Bool) (d s : String) :
    ∀ (nodes : List HNode) (m : List (String × String)),
      (processPass1 f d s nodes m).2.2 = countImgFetches nodes
  | [], _ => rfl
  | HNode.img src :: rest, m => by
      by_cases h : src = ""
      · simp [processPass1, countImgFetches, h,
          processPass1_count f d s rest m]
      · cases hd : downloadImage f d src s with
        | some p =>
            have := processPass1_count f d s rest (mapSet m src p)
            simp [processPass1, countImgFetches, h, hd] at this ⊢
            simpa [countImgFetches] using this
        | none =>
            have := processPass1_count f d s rest m
            simp [processPass1, countImgFetches, h, hd] at this ⊢
            simpa [countImgFetches] using this
  | HNode.anchor href :: rest, m => by
      simp [processPass1, countImgFetches, processPass1_count f d s rest m]
  | HNode.text t :: rest, m => by
      simp [processPass1, countImgFetches, processPass1_count f d s rest m]

theorem downloadImage_eq_some (f : String → Bool) (d u s : String)
    (h : f u = true) :
    downloadImage f d u s = some (downloadImagePathOf d s u) := by
  simp [downloadImage, downloadImagePathOf, h]

theorem downloadImage_some_val (f : String → Bool) (d u s p : String)
    (h : downloadImage f d u s = some p) :
    p = downloadImagePathOf d s u := by
  by_cases hf : f u = true
  · rw [downloadImage_eq_some f d u s hf] at h
    exact (Option.some_inj.mp h).symm
  · simp [downloadImage, hf] at h

theorem processPass1_map_form (f : String → Bool) (d s : String) :
    ∀ (nodes : List HNode) (m : List (String × String)),
      (∀ kv ∈ m, kv.2 = downloadImagePathOf d s kv.1) →
      ∀ kv ∈ (processPass1 f d s nodes m).2.1,
        kv.2 = downloadImagePathOf d s kv.1
  | [], m => fun hm kv hkv => hm kv hkv
  | HNode.img src :: rest, m => by
      intro hm kv hkv
      by_cases h : src = ""
      · simp [processPass1, h] at hkv
        exact processPass1_map_form f d s rest m hm kv hkv
      · cases hd : downloadImage f d src s with
        | some p =>
            simp [processPass1, h, hd] at hkv
            refine processPass1_map_form f d s rest (mapSet m src p) ?_ kv hkv
            intro kv' hkv'
            rcases mapSet_mem src p kv' m hkv' with h2 | h2
            · exact hm kv' h2
            · rw [h2]
              exact downloadImage_some_val f d src s p hd
        | none =>
            simp [processPass1, h, hd] at hkv
            exact processPass1_map_form f d s rest m hm kv hkv
  | HNode.anchor href :: rest, m => by
      intro hm kv hkv
      simp [processPass1] at hkv
      exact processPass1_map_form f d s rest m hm kv hkv
  | HNode.text t :: rest, m => by
      intro hm kv hkv
      simp [processPass1] at hkv
      exact processPass1_map_form f d s rest m hm kv hkv

theorem processPass1_lookup (f : String → Bool) (d s u : String)
    (hu : u ≠ "") (hf : f u = true) :
    ∀ (nodes : List HNode) (m : List (String × String)),
      (imgOccurs u nodes = true ∨
        alookup m u = some (downloadImagePathOf d s u)) →
      alookup (processPass1 f d s nodes m).2.1 u =
        some (downloadImagePathOf d s u)
  | [], m => by
      intro h
      rcases h with h | h
      · simp [imgOccurs] at h
      · simpa [processPass1] using h
  | HNode.img src :: rest, m => by
      intro h
      by_cases hsrc : src = ""
      · have h2 : imgOccurs u rest = true ∨
            alookup m u = some (downloadImagePathOf d s u) := by
          rcases h with h | h
          · left
            simp [imgOccurs] at h ⊢
            rcases h with h | h
            · subst hsrc
              exact absurd h.symm hu
            · exact h
          · exact Or.inr h
        simp only [processPass1, hsrc, if_true, if_pos rfl]
        exact processPass1_lookup f d s u hu hf rest m h2
      · cases hd : downloadImage f d src s with
        | some p =>
            simp only [processPass1, hsrc, if_neg hsrc, hd]
            by_cases heq : u = src
            · refine processPass1_lookup f d s u hu hf rest (mapSet m src p)
                (Or.inr ?_)
              have hp : p = downloadImagePathOf d s src :=
                downloadImage_some_val f d src s p hd
              rw [heq, alookup_mapSet_self, hp]
            · refine processPass1_lookup f d s u hu hf rest (mapSet m src p) ?_
              rcases h with h | h
              · left
                simp [imgOccurs] at h ⊢
                rcases h with h | h
                · exact absurd h.symm heq
                · exact h
              · right
                rw [alookup_mapSet_ne src u p heq m]
                exact h
        | none =>
            have hfv : ¬ (f src = true) := by
              intro hfs
              rw [downloadImage_eq_some f d src s hfs] at hd
              exact absurd hd (by simp)
            have heq : u ≠ src := by
              intro hh
              rw [hh] at hf
              exact hfv hf
            have h2 : imgOccurs u rest = true ∨
                alookup m u = some (downloadImagePathOf d s u) := by
              rcases h with h | h
              · left
                simp [imgOccurs] at h ⊢
                rcases h with h | h
                · exact absurd h.symm heq
                · exact h
              · exact Or.inr h
            simp only [processPass1, if_neg hsrc, hd]
            exact processPass1_lookup f d s u hu hf rest m h2
  | HNode.anchor href :: rest, m => by
      intro h
      have h2 : imgOccurs u rest = true ∨
          alookup m u = some (downloadImagePathOf d s u) := by
        rcases h with h | h
        · left
          simpa [imgOccurs] using h
        · exact Or.inr h
      simp [processPass1]
      exact processPass1_lookup f d s u hu hf rest m h2
  | HNode.text t :: rest, m => by
      intro h
      have h2 : imgOccurs u rest = true ∨
          alookup m u = some (downloadImagePathOf d s u) := by
        rcases h with h | h
        · left
          simpa [imgOccurs] using h
        · exact Or.inr h
      simp [processPass1]
      exact processPass1_lookup f d s u hu hf rest m h2

theorem processImages_nodes_eq (f : String → Bool) (d s : String)
    (nodes : List HNode) :
    (processImages f d s nodes).nodes =
      nodes.map (fun n =>
        pass2Rewrite (processImages f d s nodes).imageUrlMap
          (pass1Rewrite f d s n)) := by
  simp [processImages, processPass2, processPass1_nodes, List.map_map]

theorem forall2_map_self {α β : Type} (R : α → β → Prop) (g : α → β) :
    ∀ (l : List α), (∀ a ∈ l, R a (g a)) → List.Forall₂ R l (l.map g)
  | [], _ => List.Forall₂.nil
  | a :: rest, h =>
      List.Forall₂.cons (h a (List.mem_cons_self a rest))
        (forall2_map_self R g rest fun b hb => h b (List.mem_cons_of_mem a hb))

theorem processPass1_no_img (f : String → Bool) (d s : String) :
    ∀ (nodes : List HNode) (m : List (String × String)),
      hasImg nodes = false → processPass1 f d s nodes m = (nodes, m, 0)
  | [], m, _ => rfl
  | HNode.img src :: rest, m, h => by simp [hasImg] at h
  | HNode.anchor href :: rest, m, h => by
      have h2 : hasImg rest = false := by simpa [hasImg] using h
      simp [processPass1, processPass1_no_img f d s rest m h2]
  | HNode.text t :: rest, m, h => by
      have h2 : hasImg rest = false := by simpa [hasImg] using h
      simp [processPass1, processPass1_no_img f d s rest m h2]

theorem processPass2_nil_map :
    ∀ (nodes : List HNode), processPass2 [] nodes = nodes
  | [] => rfl
  | n :: rest => by
      have ih := processPass2_nil_map rest
      simp [processPass2] at ih ⊢
      refine ⟨?_, ih⟩
      cases n with
      | img s2 => rfl
      | anchor href => simp [pass2Rewrite, alookup]
      | text t => rfl

theorem alookup_mem {α : Type} (u : String) (v : α) :
    ∀ (m : List (String × α)), alookup m u = some v → (u, v) ∈ m
  | [], h => by simp [alookup] at h
  | kv :: rest, h => by
      by_cases hk : kv.1 = u
      · have h2 : kv.2 = v := by simpa [alookup, hk] using h
        have : kv = (u, v) := by
          cases kv
          simp only at hk h2
          rw [hk, h2]
        rw [← this]
        exact List.mem_cons_self kv rest
      · have h2 : alookup rest u = some v := by simpa [alookup, hk] using h
        exact List.mem_cons_of_mem _ (alookup_mem u v rest h2)

theorem langTag_cases (detect : String → String) (code : String) :
    (∃ l, alookup languageMap (detect code) = some l ∧ l ≠ "" ∧
      langTag detect code = l) ∨
    (detectUnmapped detect code = true ∧ isJson code = true ∧
      langTag detect code = "json") ∨
    (detectUnmapped detect code = true ∧ isJson code = false ∧
      langTag detect code = "") := by
  unfold langTag detectUnmapped
  cases h : alookup languageMap (detect code) with
  | none =>
      cases hj : isJson code with
      | true => exact Or.inr (Or.inl ⟨rfl, rfl, by simp [hj]⟩)
      | false => exact Or.inr (Or.inr ⟨rfl, rfl, by simp [hj]⟩)
  | some l =>
      by_cases hl : l = ""
      · subst hl
        cases hj : isJson code with
        | true => exact Or.inr (Or.inl ⟨by simp, rfl, by simp [hj]⟩)
        | false => exact Or.inr (Or.inr ⟨by simp, rfl, by simp [hj]⟩)
      · exact Or.inl ⟨l, rfl, hl, by simp [hl]⟩

/-! ## Claim theorems -/

/-- C5: for every post body fragment containing no `img` elements,
`processImages` returns the fragment unmodified and an empty
`imageUrlMap`. -/
theorem processImages_no_images_identity (f : String → Bool) (d s : String)
    (nodes : List HNode) (h : hasImg nodes = false) :
    (processImages f d s nodes).nodes = nodes ∧
    (processImages f d s nodes).imageUrlMap = [] := by
  have h1 := processPass1_no_img f d s nodes [] h
  constructor
  · simp [processImages, h1, processPass2_nil_map]
  · simp [processImages, h1]

/-- Witness for C5: a concrete fragment with a paragraph of text and a
hyperlink but no image comes back unchanged with an empty mapping. -/
theorem processImages_no_images_identity_witness :
    (processImages (fun _ => true) "blog_export/images" "post"
      [HNode.text "hello", HNode.anchor "http://x/page"]).nodes =
      [HNode.text "hello", HNode.anchor "http://x/page"] ∧
    (processImages (fun _ => true) "blog_export/images" "post"
      [HNode.text "hello", HNode.anchor "http://x/page"]).imageUrlMap = [] :=
  processImages_no_images_identity (fun _ => true) "blog_export/images"
    "post" [HNode.text "hello", HNode.anchor "http://x/page"] (by decide)

/-- C6: the `codeBlocks` rule fires only when the node's class attribute
contains a configured marker class as a substring — an empty configured
set classifies nothing, and a node lacking every configured class is
never classified as code, regardless of its content. -/
theorem codeBlockFilter_opt_in :
    (∀ node : CodeNode, codeBlockFilter [] node = false) ∧
    (∀ (codeClasses : List String) (node : CodeNode),
      (∀ c ∈ codeClasses, strContainsSub node.className c = false) →
      codeBlockFilter codeClasses node = false) := by
  constructor
  · intro node
    rfl
  · intro codeClasses node h
    simp only [codeBlockFilter, List.any_eq_false]
    intro c hc
    simp [h c hc]

/-- Witness for C6: the empty configured set rejects a node whose class
would match anything, and a configured class that is not a substring of
the node's class attribute rejects the node. -/
theorem codeBlockFilter_opt_in_witness :
    codeBlockFilter [] ⟨"EnlighterJSRAW", "print(1)"⟩ = false ∧
    codeBlockFilter ["python-code"] ⟨"highlight pre", "print(1)"⟩ = false :=
  ⟨codeBlockFilter_opt_in.1 ⟨"EnlighterJSRAW", "print(1)"⟩,
   codeBlockFilter_opt_in.2 ["python-code"] ⟨"highlight pre", "print(1)"⟩
     (by decide)⟩

/-- C9: each plugin hook is a left-to-right fold in configured list
order — for plugins `[A, B]` the result is `B (A base)` for the
Markdown, HTML and frontmatter hooks alike, and in general this differs
from `A (B base)`. -/
theorem plugin_fold_left_to_right (A B : Plugin) (markdown html : String)
    (amap : List (String × String)) (fm : List (String × FMVal)) (p : Post) :
    foldMarkdownPlugins [A, B] markdown =
        B.processMarkdown (A.processMarkdown markdown) ∧
    foldHtmlPlugins [A, B] html amap =
        B.processHtml (A.processHtml html amap) amap ∧
    foldFrontMatterPlugins [A, B] fm p =
        B.processFrontMatter (A.processFrontMatter fm p) p ∧
    (∃ (A2 B2 : Plugin) (base : String),
      foldMarkdownPlugins [A2, B2] base ≠
        A2.processMarkdown (B2.processMarkdown base)) := by
  refine ⟨rfl, rfl, rfl, ?_⟩
  refine ⟨⟨fun doc _ => doc, fun h _ => h, fun s2 => s2 ++ "a"⟩,
    ⟨fun doc _ => doc, fun h _ => h, fun s2 => s2 ++ "b"⟩, "", ?_⟩
  decide

/-- C1 counterexample: the claim that a single failing post is skipped
and the run continues is false — `exportPosts` wraps the whole loop in
one `try`/`catch` that logs and calls `process.exit(1)`.  With three
posts of which exactly the second throws during conversion, the run
writes exactly one document (not two) and aborts with the error. -/
theorem exportPosts_abort_counterexample :
    (exportPostsRun convertFailP2
      [samplePost "p1", samplePost "p2", samplePost "p3"]).1.length = 1 ∧
    (exportPostsRun convertFailP2
      [samplePost "p1", samplePost "p2", samplePost "p3"]).2 =
      some "conversion failed" ∧
    ¬ (exportPostsRun convertFailP2
      [samplePost "p1", samplePost "p2", samplePost "p3"]).1.length = 2 := by
  refine ⟨?_, ?_, ?_⟩ <;> decide

/-- C1 amended: a failure in any single post's pipeline is caught by the
run-level handler, which logs the error and exits — later posts are not
processed.  For a run where every post before the failing one converts
successfully, exactly the documents of that prefix have been written when
the run aborts. -/
theorem exportPosts_abort_amended (convert : Post → Except String String) :
    ∀ (pre : List Post) (p : Post) (post2 : List Post),
      (∀ q ∈ pre, ∃ doc, convert q = Except.ok doc) →
      (∃ e, convert p = Except.error e) →
      (exportPostsRun convert (pre ++ p :: post2)).1.length = pre.length ∧
      (exportPostsRun convert (pre ++ p :: post2)).2.isSome = true
  | [], p, post2, _, hp => by
      obtain ⟨e, he⟩ := hp
      simp [exportPostsRun, he]
  | q :: qs, p, post2, hpre, hp => by
      obtain ⟨doc, hq⟩ := hpre q (List.mem_cons_self q qs)
      have ih := exportPosts_abort_amended convert qs p post2
        (fun r hr => hpre r (List.mem_cons_of_mem q hr)) hp
      simp [exportPostsRun, hq, ih.1, ih.2]

/-- Witness for the amended C1: three concrete posts with the second one
failing — one document written, the run aborted. -/
theorem exportPosts_abort_amended_witness :
    (exportPostsRun convertFailP2
      ([samplePost "p1"] ++ samplePost "p2" :: [samplePost "p3"])).1.length
      = 1 ∧
    (exportPostsRun convertFailP2
      ([samplePost "p1"] ++ samplePost "p2" :: [samplePost "p3"])).2.isSome
      = true :=
  exportPosts_abort_amended convertFailP2 [samplePost "p1"]
    (samplePost "p2") [samplePost "p3"]
    (fun q hq => by
      have h : q = samplePost "p1" := by simpa using hq
      exact ⟨"doc-p1", by rw [h]; rfl⟩)
    ⟨"conversion failed", rfl⟩

/-- C7: the `codeBlocks` replacement emits a fenced block followed by a
blank line; its body is the node's text normalized by replacing literal
backslash-n pairs, then CRLF, then CR, then trimming — in that order —
and its tag is the non-empty `languageMap` entry for the detected
language when one exists, else `json` when the normalized text parses as
JSON, else empty (never fabricated). -/
theorem codeBlockReplacement_spec (detect : String → String)
    (node : CodeNode) :
    ∃ (code tag : String),
      codeBlockReplacement detect node =
        "```" ++ tag ++ "\n" ++ code ++ "\n```\n\n" ∧
      code = String.mk (trimChars (normalizeCr (normalizeCrlf
        (replaceLiteralNewlines node.textContent.data)))) ∧
      ((∃ l, alookup languageMap (detect code) = some l ∧ l ≠ "" ∧
          tag = l) ∨
       (detectUnmapped detect code = true ∧ isJson code = true ∧
          tag = "json") ∨
       (detectUnmapped detect code = true ∧ isJson code = false ∧
          tag = "")) :=
  ⟨normalizeCodeText node.textContent,
   langTag detect (normalizeCodeText node.textContent), rfl, rfl,
   langTag_cases detect (normalizeCodeText node.textContent)⟩

/-- C10: the JSON fallback probe accepts any text a JSON parser accepts,
scalars included — whenever language detection yields no mapped tag and
the normalized text is a valid JSON value, the fence is tagged `json`. -/
theorem jsonProbe_tags_any_json_value (detect : String → String)
    (node : CodeNode)
    (h1 : detectUnmapped detect (normalizeCodeText node.textContent) = true)
    (h2 : isJson (normalizeCodeText node.textContent) = true) :
    codeBlockReplacement detect node =
      "```json\n" ++ normalizeCodeText node.textContent ++ "\n```\n\n" := by
  have ht : langTag detect (normalizeCodeText node.textContent) = "json" := by
    unfold langTag
    unfold detectUnmapped at h1
    cases h : alookup languageMap
        (detect (normalizeCodeText node.textContent)) with
    | none => simp [h2]
    | some l =>
        rw [h] at h1
        have hl : l = "" := by simpa using h1
        simp [hl, h2]
  show "```" ++ langTag detect (normalizeCodeText node.textContent) ++
      "\n" ++ normalizeCodeText node.textContent ++ "\n```\n\n" = _
  rw [ht]
  rfl

/-- Witness for C10: the probe accepts a bare number, the boolean and
null literals, a quoted string and a signed scientific number — none of
which is an object or array — and the rule fences a bare-number node as
`json` when detection is unmapped. -/
theorem jsonProbe_tags_any_json_value_witness :
    isJson "42" = true ∧ isJson "true" = true ∧ isJson "false" = true ∧
    isJson "null" = true ∧ isJson "\"hi\"" = true ∧
    isJson "-1.5e2" = true ∧ isJson "not json" = false ∧
    codeBlockReplacement (fun _ => "Unknown") ⟨"EnlighterJSRAW", "42"⟩ =
      "```json\n42\n```\n\n" :=
  ⟨by decide, by decide, by decide, by decide, by decide, by decide,
   by decide,
   (jsonProbe_tags_any_json_value (fun _ => "Unknown")
      ⟨"EnlighterJSRAW", "42"⟩ (by decide) (by decide)).trans (by decide)⟩

/-- C8: frontmatter assembly produces keys in the fixed insertion order
title, date, modified, slug, status, categories, tags, author, excerpt,
original_url, with `featured_image` appended last exactly when the
featured image resolved to a truthy path; a record with no embedded term
data yields empty category and tag lists rather than failing.  The
serialization (`yamlDump`, modelling `js-yaml`'s insertion-order dump)
emits keys in exactly this list order by construction. -/
theorem frontmatter_key_order (f : String → Bool) (d wpUrl : String)
    (p : Post) (amap : List (String × String)) :
    ((createFrontMatter f d wpUrl p amap).map Prod.fst =
      ["title", "date", "modified", "slug", "status", "categories",
       "tags", "author", "excerpt", "original_url"] ++
      (if featuredTruthy (extractFeaturedImage f d p amap) = true then
        ["featured_image"] else [])) ∧
    (p.embedded.bind EmbeddedData.wpTerm = none →
      alookup (createFrontMatter f d wpUrl p amap) "categories" =
        some (FMVal.list []) ∧
      alookup (createFrontMatter f d wpUrl p amap) "tags" =
        some (FMVal.list [])) := by
  constructor
  · unfold createFrontMatter
    cases hf : extractFeaturedImage f d p amap with
    | none => simp [featuredTruthy]
    | some v =>
        by_cases hv : v = ""
        · simp [featuredTruthy, hv]
        · simp [featuredTruthy, hv]
  · intro h
    have hcat : termGroup p 0 = none := by simp [termGroup, h]
    have htag : termGroup p 1 = none := by simp [termGroup, h]
    unfold createFrontMatter
    cases hf : extractFeaturedImage f d p amap with
    | none => simp [alookup, hcat, htag, extractTermNames]
    | some v =>
        by_cases hv : v = ""
        · simp [alookup, hcat, htag, extractTermNames, hv]
        · simp [alookup, hcat, htag, extractTermNames, hv]

/-- Witness for C8: a post with no embedded data yields the ten fixed
keys in order with empty category and tag lists; a post with embedded
featured media gets `featured_image` appended last. -/
theorem frontmatter_key_order_witness :
    ((createFrontMatter (fun _ => true) "blog_export/images" "https://site"
        (samplePost "p1") []).map Prod.fst =
      ["title", "date", "modified", "slug", "status", "categories",
       "tags", "author", "excerpt", "original_url"]) ∧
    alookup (createFrontMatter (fun _ => true) "blog_export/images"
      "https://site" (samplePost "p1") []) "categories" =
      some (FMVal.list []) ∧
    alookup (createFrontMatter (fun _ => true) "blog_export/images"
      "https://site" (samplePost "p1") []) "tags" = some (FMVal.list []) ∧
    ((createFrontMatter (fun _ => true) "blog_export/images" "https://site"
        mediaPost []).map Prod.fst =
      ["title", "date", "modified", "slug", "status", "categories",
       "tags", "author", "excerpt", "original_url", "featured_image"]) :=
  ⟨((frontmatter_key_order (fun _ => true) "blog_export/images"
      "https://site" (samplePost "p1") []).1).trans (by decide),
   ((frontmatter_key_order (fun _ => true) "blog_export/images"
      "https://site" (samplePost "p1") []).2 rfl).1,
   ((frontmatter_key_order (fun _ => true) "blog_export/images"
      "https://site" (samplePost "p1") []).2 rfl).2,
   ((frontmatter_key_order (fun _ => true) "blog_export/images"
      "https://site" mediaPost []).1).trans (by decide)⟩

/-- C2 counterexample: the recorded mapping value is not relative to the
output base directory.  Under the entry point's default configuration
(output directory `blog_export`, images directory `blog_export/images`),
`downloadImage` returns `path.join(imagesDir, sanitize(slug), sanitize(file))`
as-is — `blog_export/images/post/pic.png` — while the path relative to
the output base directory would be `images/post/pic.png`.  (The older
`src/lib/index.js` variant applied `path.relative(this.baseDir, ...)`;
the current entry point src/unnamed/part_002 does not.) -/
theorem downloadImage_path_counterexample :
    (processImages (fun _ => true) "blog_export/images" "post"
      [HNode.img "http://x/pic.png"]).imageUrlMap =
      [("http://x/pic.png", "blog_export/images/post/pic.png")] ∧
    pathRelative "blog_export" "blog_export/images/post/pic.png" =
      "images/post/pic.png" ∧
    ("blog_export/images/post/pic.png" : String) ≠ "images/post/pic.png" := by
  refine ⟨?_, ?_, ?_⟩ <;> decide

/-- C2 amended: every value recorded in the asset mapping (and written
into the rewritten `img` src) is
`<imagesDir>/<sanitized(postSlug)>/<sanitized(originalFilename)>`, where
`imagesDir` is the configured images directory (not a path relativized
to the output base directory) and `originalFilename` is the final
`'/'`-separated segment of the original URL. -/
theorem imageUrlMap_path_form (f : String → Bool) (d s : String)
    (nodes : List HNode) (u p2 : String)
    (h : alookup (processImages f d s nodes).imageUrlMap u = some p2) :
    p2 = downloadImagePathOf d s u := by
  have hm : ∀ kv ∈ (processImages f d s nodes).imageUrlMap,
      kv.2 = downloadImagePathOf d s kv.1 := by
    simp only [processImages]
    exact processPass1_map_form f d s nodes [] (by simp)
  exact hm (u, p2) (alookup_mem u p2 _ h)

/-- Witness for the amended C2: the concrete recorded value for a
downloaded URL has exactly the derived form. -/
theorem imageUrlMap_path_form_witness :
    alookup (processImages (fun _ => true) "blog_export/images" "post"
      [HNode.img "http://x/pic.png"]).imageUrlMap "http://x/pic.png" =
      some "blog_export/images/post/pic.png" ∧
    ("blog_export/images/post/pic.png" : String) =
      downloadImagePathOf "blog_export/images" "post" "http://x/pic.png" :=
  ⟨by decide,
   imageUrlMap_path_form (fun _ => true) "blog_export/images" "post"
     [HNode.img "http://x/pic.png"] "http://x/pic.png"
     "blog_export/images/post/pic.png" (by decide)⟩

/-- C3 counterexample: the fetch capability is not invoked at most once
per distinct URL — `processImages` has no deduplication check before
`downloadImage`, so a URL occurring in two `img` elements is fetched
twice. -/
theorem fetch_not_deduplicated :
    (processImages (fun _ => true) "blog_export/images" "post"
      [HNode.img "http://x/a.png", HNode.img "http://x/a.png"]).fetchCalls
      = 2 ∧
    ¬ ((processImages (fun _ => true) "blog_export/images" "post"
      [HNode.img "http://x/a.png", HNode.img "http://x/a.png"]).fetchCalls
      ≤ 1) := by
  refine ⟨?_, ?_⟩ <;> decide

/-- C3 amended: the fetch capability is invoked once per `img`
occurrence with a non-empty `src` (not once per distinct URL); since the
local path is a pure function of the URL and slug, every successfully
fetched occurrence of the same URL is still rewritten to the same
path. -/
theorem fetch_once_per_occurrence (f : String → Bool) (d s : String)
    (nodes : List HNode) :
    (processImages f d s nodes).fetchCalls = countImgFetches nodes ∧
    (∀ u, u ≠ "" → f u = true →
      List.Forall₂ (fun a b => a = HNode.img u →
          b = HNode.img (downloadImagePathOf d s u))
        nodes (processImages f d s nodes).nodes) := by
  constructor
  · simp only [processImages]
    exact processPass1_count f d s nodes []
  · intro u hu hf
    rw [processImages_nodes_eq]
    refine forall2_map_self _ _ nodes ?_
    intro a _ ha
    subst ha
    simp [pass1Rewrite, hu, downloadImage_eq_some f d u s hf, pass2Rewrite]

/-- Witness for the amended C3: one fetchable image and one text node —
one fetch, and the image occurrence rewritten to the derived path. -/
theorem fetch_once_per_occurrence_witness :
    (processImages (fun _ => true) "ims" "post"
      [HNode.img "http://x/a.png", HNode.text "t"]).fetchCalls =
      countImgFetches [HNode.img "http://x/a.png", HNode.text "t"] ∧
    List.Forall₂ (fun a b => a = HNode.img "http://x/a.png" →
        b = HNode.img (downloadImagePathOf "ims" "post" "http://x/a.png"))
      [HNode.img "http://x/a.png", HNode.text "t"]
      (processImages (fun _ => true) "ims" "post"
        [HNode.img "http://x/a.png", HNode.text "t"]).nodes :=
  ⟨(fetch_once_per_occurrence (fun _ => true) "ims" "post"
      [HNode.img "http://x/a.png", HNode.text "t"]).1,
   (fetch_once_per_occurrence (fun _ => true) "ims" "post"
      [HNode.img "http://x/a.png", HNode.text "t"]).2
     "http://x/a.png" (by decide) rfl⟩

/-- C4: for every image URL that resolves successfully in the first
pass, every `img` occurrence of that URL is rewritten to the derived
local path and every `a` element whose target equals that URL is updated
to the same path in the second pass. -/
theorem link_image_consistency (f : String → Bool) (d s : String)
    (nodes : List HNode) (u : String) (h1 : f u = true) (h2 : u ≠ "")
    (h3 : imgOccurs u nodes = true) :
    List.Forall₂ (fun a b =>
      (a = HNode.img u → b = HNode.img (downloadImagePathOf d s u)) ∧
      (a = HNode.anchor u → b = HNode.anchor (downloadImagePathOf d s u)))
      nodes (processImages f d s nodes).nodes := by
  have hmap : alookup (processImages f d s nodes).imageUrlMap u =
      some (downloadImagePathOf d s u) := by
    simp only [processImages]
    exact processPass1_lookup f d s u h2 h1 nodes [] (Or.inl h3)
  rw [processImages_nodes_eq]
  refine forall2_map_self _ _ nodes ?_
  intro a _
  constructor
  · intro ha
    subst ha
    simp [pass1Rewrite, h2, downloadImage_eq_some f d u s h1, pass2Rewrite]
  · intro ha
    subst ha
    simp [pass1Rewrite, pass2Rewrite, h2, hmap]

/-- Witness for C4: a fragment with an image and a full-size link to the
same URL — both end up pointing at the same local path. -/
theorem link_image_consistency_witness :
    List.Forall₂ (fun a b =>
      (a = HNode.img "http://x/a.png" →
        b = HNode.img (downloadImagePathOf "ims" "post" "http://x/a.png")) ∧
      (a = HNode.anchor "http://x/a.png" →
        b = HNode.anchor (downloadImagePathOf "ims" "post" "http://x/a.png")))
      [HNode.img "http://x/a.png", HNode.anchor "http://x/a.png"]
      (processImages (fun _ => true) "ims" "post"
        [HNode.img "http://x/a.png", HNode.anchor "http://x/a.png"]).nodes :=
  link_image_consistency (fun _ => true) "ims" "post"
    [HNode.img "http://x/a.png", HNode.anchor "http://x/a.png"]
    "http://x/a.png" rfl (by decide) (by decide)

end WpToMarkdown
